import Mathlib

/-!
Shallow embedding of the pastebin repository's paste store and its HTTP
boundary, with theorems settling the spec's claims about it.

The repository ships several backend variants of the same store:

* a `sqlite3` callback variant and a `pg` variant (db.js, and the first
  section of the unnamed source file): the consume transaction rejects an
  expired paste with the test `row.expires_at && now >= row.expires_at`
  and never deletes rows;
* a `better-sqlite3` variant (second section of the unnamed source file):
  the consume path rejects with `paste.expires_at && paste.expires_at < now`
  and eagerly DELETEs the row when that expiry test fires.

Both variants are embedded below: `fetchPasteWithView` models the
sqlite3/pg transaction, `fetchPasteWithViewEager` models the
better-sqlite3 one.  Field names follow the table schema; machine time is
the caller-supplied millisecond clock, modelled as `Int`.
-/

namespace Pastebin

/-- One row of the `pastes` table: `id TEXT PRIMARY KEY`, `content TEXT`,
`created_at INTEGER`, nullable `expires_at INTEGER`, nullable
`remaining_views INTEGER`. -/
structure PasteRow where
  id : String
  content : String
  created_at : Int
  expires_at : Option Int
  remaining_views : Option Int
deriving Repr, DecidableEq

/-- The `pastes` table.  A list of rows; the PRIMARY KEY constraint is the
invariant that the ids are pairwise distinct, maintained by the
operations. -/
abbrev Store := List PasteRow

/-- Row lookup by primary key: `SELECT * FROM pastes WHERE id = ?`. -/
def findRow (s : Store) (id : String) : Option PasteRow :=
  s.find? (fun r => r.id == id)

/-- JS truthiness of the nullable `ttl_seconds` / `expires_at` values:
`null`/`undefined` and `0` are falsy, every other integer is truthy. -/
def truthyInt : Option Int → Bool
  | none => false
  | some n => n != 0

/-- Expiry test of the sqlite3/pg consume transaction:
`row.expires_at && now >= row.expires_at`. -/
def expiredGE (expires_at : Option Int) (now : Int) : Bool :=
  match expires_at with
  | none => false
  | some e => e != 0 && decide (e ≤ now)

/-- Expiry test of the better-sqlite3 consume path:
`paste.expires_at && paste.expires_at < now`. -/
def expiredLT (expires_at : Option Int) (now : Int) : Bool :=
  match expires_at with
  | none => false
  | some e => e != 0 && decide (e < now)

/-- Stored `expires_at` computed at creation:
`ttl_seconds ? created_at + ttl_seconds * 1000 : null` — note the JS
truthiness test, which treats `ttl_seconds = 0` like absence. -/
def mkExpiresAt (created_at : Int) : Option Int → Option Int
  | none => none
  | some t => if t == 0 then none else some (created_at + t * 1000)

/-- The row assembled by `createPaste`; `created_at` is the clock value the
code reads from `Date.now()`, passed explicitly here.  `remaining_views`
is seeded from `max_views` when that is a number, else NULL. -/
def mkRow (id content : String) (ttl_seconds max_views : Option Int)
    (created_at : Int) : PasteRow :=
  { id := id, content := content, created_at := created_at,
    expires_at := mkExpiresAt created_at ttl_seconds,
    remaining_views := max_views }

/-- Store-level `createPaste`: a single INSERT; the PRIMARY KEY constraint
rejects a duplicate id, surfaced as an error with the store unchanged. -/
def createPaste (s : Store) (id content : String) (ttl_seconds max_views : Option Int)
    (created_at : Int) : Except Unit Store :=
  if s.any (fun r => r.id == id) then Except.error ()
  else Except.ok (mkRow id content ttl_seconds max_views created_at :: s)

/-- Effect of `UPDATE pastes SET remaining_views = ? WHERE id = ?` (the
sqlite3/pg variant writes the freshly computed value). -/
def setViews (s : Store) (id : String) (v : Int) : Store :=
  s.map (fun r => if r.id == id then { r with remaining_views := some v } else r)

/-- Effect of `UPDATE pastes SET remaining_views = remaining_views - 1
WHERE id = ?` (the better-sqlite3 variant decrements in SQL; NULL - 1 is
NULL). -/
def decViews (s : Store) (id : String) : Store :=
  s.map (fun r =>
    if r.id == id then { r with remaining_views := r.remaining_views.map (· - 1) } else r)

/-- Effect of `DELETE FROM pastes WHERE id = ?`, together with the
`changes > 0` / `rowCount > 0` result `deletePaste` returns. -/
def deletePaste (s : Store) (id : String) : Bool × Store :=
  (s.any (fun r => r.id == id), s.filter (fun r => r.id != id))

/-- Atomic consume of the sqlite3/pg variant (`fetchPasteWithView`):
look the row up; absent → null; expired (`now >= expires_at`, truthiness
guarded) → null; `remaining_views` present and `<= 0` → null; present and
positive → write the decremented value and return the row carrying it;
NULL budget → return the row unchanged.  Result pairs the resolved value
with the table state after commit/rollback. -/
def fetchPasteWithView (s : Store) (id : String) (now : Int) :
    Option PasteRow × Store :=
  match findRow s id with
  | none => (none, s)
  | some row =>
    if expiredGE row.expires_at now then (none, s)
    else
      match row.remaining_views with
      | some v =>
        if v ≤ 0 then (none, s)
        else (some { row with remaining_views := some (v - 1) }, setViews s id (v - 1))
      | none => (some row, s)

/-- Shape of the better-sqlite3 consume result: it returns only
`content`, the post-decrement `remaining_views`, and `expires_at`. -/
structure ConsumeResult where
  content : String
  remaining_views : Option Int
  expires_at : Option Int
deriving Repr, DecidableEq

/-- Consume path of the better-sqlite3 variant: look the row up; absent →
null; expired (`expires_at < now`, truthiness guarded) → DELETE the row
and return null; `remaining_views` present and `<= 0` → null without
deleting; present and positive → SQL-decrement and return
`remaining_views - 1`; NULL budget → return with NULL views. -/
def fetchPasteWithViewEager (s : Store) (id : String) (now : Int) :
    Option ConsumeResult × Store :=
  match findRow s id with
  | none => (none, s)
  | some paste =>
    if expiredLT paste.expires_at now then (none, (deletePaste s id).2)
    else
      match paste.remaining_views with
      | some v =>
        if v ≤ 0 then (none, s)
        else (some ⟨paste.content, some (v - 1), paste.expires_at⟩, decViews s id)
      | none => (some ⟨paste.content, none, paste.expires_at⟩, s)

/-- Metadata shape returned by `getPasteStats` and `listAllPastes`:
`SELECT id, created_at, expires_at, remaining_views, LENGTH(content)`. -/
structure PasteMeta where
  id : String
  created_at : Int
  expires_at : Option Int
  remaining_views : Option Int
  content_length : Nat
deriving Repr, DecidableEq

/-- Projection of a row to its stats shape. -/
def metaOf (r : PasteRow) : PasteMeta :=
  { id := r.id, created_at := r.created_at, expires_at := r.expires_at,
    remaining_views := r.remaining_views, content_length := r.content.length }

/-- Stats query: a single SELECT by primary key, no writes, no expiry or
view filter in its WHERE clause. -/
def getPasteStats (s : Store) (id : String) : Option PasteMeta :=
  (findRow s id).map metaOf

/-- Descending `created_at` order used by
`SELECT ... ORDER BY created_at DESC`. -/
def newestFirst (a b : PasteMeta) : Prop := b.created_at ≤ a.created_at

instance : DecidableRel newestFirst := fun _ _ => inferInstanceAs (Decidable (_ ≤ _))

instance : IsTotal PasteMeta newestFirst :=
  ⟨fun a b => le_total b.created_at a.created_at⟩

instance : IsTrans PasteMeta newestFirst :=
  ⟨fun _ _ _ h1 h2 => le_trans h2 h1⟩

/-- Read-only list query of the db layer: metadata of every row, ordered
by `created_at` descending; no LIMIT clause at this layer. -/
def listAllPastes (s : Store) : List PasteMeta :=
  List.insertionSort newestFirst (s.map metaOf)

/-- Limit applied by the admin route: `parseInt(req.query.limit) || 100`
(absent/NaN/0 all fall back to 100). -/
def parseLimit : Option Int → Int
  | none => 100
  | some n => if n == 0 then 100 else n

/-- JS `Array.prototype.slice(0, limit)`: a nonnegative bound keeps the
first `limit` entries, a negative one drops `-limit` from the tail. -/
def sliceTo (l : List PasteMeta) (limit : Int) : List PasteMeta :=
  if limit < 0 then l.take (l.length - limit.natAbs) else l.take limit.toNat

/-- Admin listing route `GET /api/admin/pastes`: fetch all rows from the
db layer, then `pastes.slice(0, limit)` with the parsed limit. -/
def adminList (s : Store) (limit : Option Int) : List PasteMeta :=
  sliceTo (listAllPastes s) (parseLimit limit)

/-! ## The HTTP create boundary

`POST /api/pastes` validates the JSON body before touching the store.
A body field is an arbitrary JSON value; the validation distinguishes
strings, integers, non-integer numbers (`Number.isInteger` fails on
them), and everything else.  An absent field is `none`. -/

/-- JSON value as far as the create validation observes it. -/
inductive JsonVal where
  | str (s : String)
  | int (n : Int)
  | nonIntNum
  | other
deriving Repr, DecidableEq

/-- Check `typeof content === 'string' && content.trim() !== ''` — the
route rejects otherwise.  A JS string trims to the empty string exactly
when every one of its characters is whitespace, which is how the trim
test is rendered here. -/
def contentOk : Option JsonVal → Bool
  | some (JsonVal.str s) => !s.data.all Char.isWhitespace
  | _ => false

/-- Check on an optional numeric field: pass when the field is
`undefined`, or `Number.isInteger(x) && x >= 1`. -/
def posIntOk : Option JsonVal → Bool
  | none => true
  | some (JsonVal.int n) => decide (1 ≤ n)
  | some _ => false

/-- String payload the route passes through after validation. -/
def asStr : Option JsonVal → String
  | some (JsonVal.str s) => s
  | _ => ""

/-- Integer payload the route passes through after validation. -/
def asInt : Option JsonVal → Option Int
  | some (JsonVal.int n) => some n
  | _ => none

/-- Observable outcome of the create route: 400 InvalidArgument, 500 on a
store failure (duplicate id), or 201 with the fresh id. -/
inductive CreateOutcome where
  | invalidArgument
  | storeError
  | created (id : String)
deriving Repr, DecidableEq

/-- The `POST /api/pastes` handler: the three validation checks in route
order, then `createPaste` with the generated id and the clock value. -/
def createEndpoint (s : Store) (content ttl_seconds max_views : Option JsonVal)
    (id : String) (created_at : Int) : CreateOutcome × Store :=
  if !contentOk content then (CreateOutcome.invalidArgument, s)
  else if !posIntOk ttl_seconds then (CreateOutcome.invalidArgument, s)
  else if !posIntOk max_views then (CreateOutcome.invalidArgument, s)
  else
    match createPaste s id (asStr content) (asInt ttl_seconds) (asInt max_views) created_at with
    | Except.error _ => (CreateOutcome.storeError, s)
    | Except.ok s' => (CreateOutcome.created id, s')

/-! ## Operation sequences

One step per store operation, to state invariants over arbitrary
interleavings of the five operations.  `stats` and `list` run single
SELECTs, so their step leaves the table as it is; that the code indeed
issues no write there is what the frame claims check. -/

/-- The store's operations, as invoked by the routes. -/
inductive Op where
  | create (id content : String) (ttl_seconds max_views : Option Int) (created_at : Int)
  | consume (id : String) (now : Int)
  | stats (id : String)
  | delete (id : String)
  | list
deriving Repr, DecidableEq

/-- Check for the stats operation. -/
def Op.isStats : Op → Bool
  | Op.stats _ => true
  | _ => false

/-- State transition of one operation under the sqlite3/pg variant.  A
failed create (duplicate key) rolls back to the unchanged store. -/
def stepS (s : Store) : Op → Store
  | Op.create id c ttl mv t => (createPaste s id c ttl mv t).toOption.getD s
  | Op.consume id now => (fetchPasteWithView s id now).2
  | Op.stats _ => s
  | Op.delete id => (deletePaste s id).2
  | Op.list => s

/-- State transition of one operation under the better-sqlite3 variant. -/
def stepB (s : Store) : Op → Store
  | Op.create id c ttl mv t => (createPaste s id c ttl mv t).toOption.getD s
  | Op.consume id now => (fetchPasteWithViewEager s id now).2
  | Op.stats _ => s
  | Op.delete id => (deletePaste s id).2
  | Op.list => s

/-- Run a sequence of operations, sqlite3/pg variant. -/
def runS (s : Store) (ops : List Op) : Store := ops.foldl stepS s

/-- Run a sequence of operations, better-sqlite3 variant. -/
def runB (s : Store) (ops : List Op) : Store := ops.foldl stepB s

/-- View budgets are nonnegative wherever present. -/
def viewsNonneg (s : Store) : Prop :=
  ∀ r ∈ s, ∀ v, r.remaining_views = some v → 0 ≤ v

/-- PRIMARY KEY: the ids of the table's rows are pairwise distinct. -/
def keysNodup (s : Store) : Prop := (s.map (fun r => r.id)).Nodup

/-- Reachable-store invariant: unique keys and nonnegative budgets. -/
def Inv (s : Store) : Prop := keysNodup s ∧ viewsNonneg s

/-- Creation inputs respect the data model: `max_views`, when present, is
a nonnegative integer (the boundary even enforces `>= 1`). -/
def okOp : Op → Prop
  | Op.create _ _ _ mv _ => ∀ v, mv = some v → 0 ≤ v
  | _ => True

/-- View budget of a row allows a further read: NULL or positive. -/
def budgetOk (mv : Option Int) : Prop := mv = none ∨ ∃ v, mv = some v ∧ 0 < v

/-! ## Concrete stores used by counterexamples and witnesses -/

/-- Demo paste created at t0 = 1000 with `ttl_seconds = 4`, hence
`expires_at = 5000`; unlimited views. -/
def demoExpiry : Store :=
  [{ id := "a", content := "x", created_at := 1000,
     expires_at := some 5000, remaining_views := none }]

/-- Demo paste that is both expired (at any `now > 50`) and
view-exhausted. -/
def demoDeadRow : PasteRow :=
  { id := "d", content := "zz", created_at := 10,
    expires_at := some 50, remaining_views := some 0 }

/-- Store holding only `demoDeadRow`. -/
def demoDead : Store := [demoDeadRow]

/-- Demo paste with a single remaining view and no TTL (Scenario A). -/
def demoViewRow : PasteRow :=
  { id := "v", content := "hello", created_at := 0,
    expires_at := none, remaining_views := some 1 }

/-- Store holding only `demoViewRow`. -/
def demoViews : Store := [demoViewRow]

/-- Store with two pastes out of creation order: one dead (created at 10)
and one fresh (created at 20). -/
def demoPair : Store :=
  [demoDeadRow,
   { id := "n", content := "new", created_at := 20,
     expires_at := none, remaining_views := some 3 }]

/-! ## Helper lemmas -/

theorem findRow_id (s : Store) (id : String) (r : PasteRow)
    (h : findRow s id = some r) : r.id = id := by
  have := List.find?_some h
  simpa using this

theorem findRow_mem (s : Store) (id : String) (r : PasteRow)
    (h : findRow s id = some r) : r ∈ s :=
  List.mem_of_find?_eq_some h

theorem findRow_cons_self (s : Store) (r : PasteRow) (id : String) (hr : r.id = id) :
    findRow (r :: s) id = some r := by
  simp [findRow, List.find?_cons, hr]

theorem findRow_map (f : PasteRow → PasteRow) (hf : ∀ r, (f r).id = r.id)
    (s : Store) (id : String) :
    findRow (s.map f) id = (findRow s id).map f := by
  induction s with
  | nil => rfl
  | cons a t ih =>
      by_cases h : a.id = id
      · simp [findRow, List.find?_cons, hf, h]
      · simpa [findRow, List.find?_cons, hf, h] using ih

theorem findRow_filter_ne (s : Store) (id : String) :
    findRow (s.filter (fun r => r.id != id)) id = none := by
  induction s with
  | nil => rfl
  | cons a t ih =>
      by_cases h : a.id = id
      · rw [show List.filter (fun r => r.id != id) (a :: t) =
              List.filter (fun r => r.id != id) t by simp [List.filter_cons, h]]
        exact ih
      · simp only [findRow, List.filter_cons, List.find?_cons] at ih ⊢
        simp [h, ih]

theorem findRow_none_of_not_mem (s : Store) (id : String)
    (h : ∀ r ∈ s, r.id ≠ id) : findRow s id = none := by
  induction s with
  | nil => rfl
  | cons a t ih =>
      have ha : a.id ≠ id := h a (by simp)
      simpa [findRow, List.find?_cons, ha] using ih (fun r hr => h r (by simp [hr]))

theorem findRow_eq_of_mem (s : Store) (id : String) (row r : PasteRow)
    (hnd : keysNodup s) (hfind : findRow s id = some row)
    (hmem : r ∈ s) (hid : r.id = id) : r = row := by
  induction s with
  | nil => cases hmem
  | cons a t ih =>
      have hnd' : a.id ∉ t.map (fun x => x.id) ∧ keysNodup t := by
        simpa [keysNodup] using hnd
      rcases List.mem_cons.mp hmem with rfl | hmemt
      · rw [findRow_cons_self t r id hid] at hfind
        exact (Option.some.injEq _ _ ▸ hfind).symm ▸ rfl
      · by_cases h : a.id = id
        · exfalso
          apply hnd'.1
          rw [h, ← hid]
          exact List.mem_map_of_mem (fun x => x.id) hmemt
        · have : findRow t id = some row := by
            simpa [findRow, List.find?_cons, h] using hfind
          exact ih hnd'.2 this hmemt

theorem keysNodup_map (f : PasteRow → PasteRow) (hf : ∀ r, (f r).id = r.id)
    (s : Store) (h : keysNodup s) : keysNodup (s.map f) := by
  unfold keysNodup at *
  rw [List.map_map]
  have : ((fun r => r.id) ∘ f) = (fun r => r.id) := by
    funext r; exact hf r
  rwa [this]

theorem keysNodup_filter (p : PasteRow → Bool) (s : Store) (h : keysNodup s) :
    keysNodup (s.filter p) :=
  List.Nodup.sublist (List.Sublist.map _ (List.filter_sublist s)) h

theorem viewsNonneg_setViews (s : Store) (id : String) (v : Int) (hv : 0 ≤ v)
    (h : viewsNonneg s) : viewsNonneg (setViews s id v) := by
  intro r hr w hw
  rcases List.mem_map.mp hr with ⟨r0, hr0, rfl⟩
  by_cases hid : r0.id = id
  · simp only [hid, beq_self_eq_true, if_true] at hw
    simp only [Option.some.injEq] at hw
    omega
  · simp only [show (r0.id == id) = false by simp [hid], Bool.false_eq_true,
      if_false] at hw
    exact h r0 hr0 w hw

theorem viewsNonneg_filter (p : PasteRow → Bool) (s : Store)
    (h : viewsNonneg s) : viewsNonneg (s.filter p) :=
  fun r hr v hv => h r (List.mem_of_mem_filter hr) v hv

theorem inv_stepS (s : Store) (op : Op) (hInv : Inv s) (hok : okOp op) :
    Inv (stepS s op) := by
  obtain ⟨hnd, hvw⟩ := hInv
  cases op with
  | create id c ttl mv t =>
      simp only [stepS, createPaste]
      by_cases hdup : s.any (fun r => r.id == id) = true
      · simpa [hdup, Except.toOption] using ⟨hnd, hvw⟩
      · simp only [Bool.not_eq_true] at hdup
        simp only [hdup, Bool.false_eq_true, if_false, Except.toOption, Option.getD_some]
        constructor
        · refine List.nodup_cons.mpr ⟨?_, hnd⟩
          intro hmem
          rcases List.mem_map.mp hmem with ⟨r, hr, hid⟩
          have := (List.any_eq_false.mp hdup) r hr
          simp only [mkRow] at hid
          simp [hid] at this
        · intro r hr v hv
          rcases List.mem_cons.mp hr with rfl | hrs
          · exact hok v (by simpa [mkRow] using hv)
          · exact hvw r hrs v hv
  | consume id now =>
      simp only [stepS, fetchPasteWithView]
      cases hfind : findRow s id with
      | none => exact ⟨hnd, hvw⟩
      | some row =>
          by_cases hexp : expiredGE row.expires_at now = true
          · simpa [hexp] using ⟨hnd, hvw⟩
          · simp only [Bool.not_eq_true] at hexp
            simp only [hexp, Bool.false_eq_true, if_false]
            cases hrv : row.remaining_views with
            | none => exact ⟨hnd, hvw⟩
            | some v =>
                by_cases hv : v ≤ 0
                · simpa [hv] using ⟨hnd, hvw⟩
                · simp only [hv, if_false]
                  refine ⟨keysNodup_map _ (fun r => by by_cases h : r.id = id <;> simp [h])
                    s hnd, ?_⟩
                  exact viewsNonneg_setViews s id (v - 1) (by omega) hvw
  | stats id => exact ⟨hnd, hvw⟩
  | delete id =>
      simp only [stepS, deletePaste]
      exact ⟨keysNodup_filter _ s hnd, viewsNonneg_filter _ s hvw⟩
  | list => exact ⟨hnd, hvw⟩

theorem inv_stepB (s : Store) (op : Op) (hInv : Inv s) (hok : okOp op) :
    Inv (stepB s op) := by
  obtain ⟨hnd, hvw⟩ := hInv
  cases op with
  | create id c ttl mv t =>
      have := inv_stepS s (Op.create id c ttl mv t) ⟨hnd, hvw⟩ hok
      simpa [stepS, stepB] using this
  | consume id now =>
      simp only [stepB, fetchPasteWithViewEager]
      cases hfind : findRow s id with
      | none => exact ⟨hnd, hvw⟩
      | some row =>
          by_cases hexp : expiredLT row.expires_at now = true
          · simp only [hexp, if_true, deletePaste]
            exact ⟨keysNodup_filter _ s hnd, viewsNonneg_filter _ s hvw⟩
          · simp only [Bool.not_eq_true] at hexp
            simp only [hexp, Bool.false_eq_true, if_false]
            cases hrv : row.remaining_views with
            | none => exact ⟨hnd, hvw⟩
            | some v =>
                by_cases hv : v ≤ 0
                · simpa [hv] using ⟨hnd, hvw⟩
                · simp only [hv, if_false]
                  refine ⟨keysNodup_map _ (fun r => by by_cases h : r.id = id <;> simp [h])
                    s hnd, ?_⟩
                  intro r hr w hw
                  rcases List.mem_map.mp hr with ⟨r0, hr0, rfl⟩
                  by_cases hid : r0.id = id
                  · have heq : r0 = row := findRow_eq_of_mem s id row r0 hnd hfind hr0 hid
                    subst heq
                    simp only [hid, beq_self_eq_true, if_true, hrv, Option.map_some',
                      Option.some.injEq] at hw
                    omega
                  · simp only [show (r0.id == id) = false by simp [hid], Bool.false_eq_true,
                      if_false] at hw
                    exact hvw r0 hr0 w hw
  | stats id => exact ⟨hnd, hvw⟩
  | delete id =>
      simp only [stepB, deletePaste]
      exact ⟨keysNodup_filter _ s hnd, viewsNonneg_filter _ s hvw⟩
  | list => exact ⟨hnd, hvw⟩

theorem inv_runS (s : Store) (ops : List Op) (hInv : Inv s)
    (hops : ∀ op ∈ ops, okOp op) : Inv (runS s ops) := by
  induction ops generalizing s with
  | nil => exact hInv
  | cons op t ih =>
      exact ih (stepS s op) (inv_stepS s op hInv (hops op (by simp)))
        (fun o ho => hops o (by simp [ho]))

theorem inv_runB (s : Store) (ops : List Op) (hInv : Inv s)
    (hops : ∀ op ∈ ops, okOp op) : Inv (runB s ops) := by
  induction ops generalizing s with
  | nil => exact hInv
  | cons op t ih =>
      exact ih (stepB s op) (inv_stepB s op hInv (hops op (by simp)))
        (fun o ho => hops o (by simp [ho]))

theorem expiredLT_false_of_expiredGE_false (e : Option Int) (now : Int)
    (h : expiredGE e now = false) : expiredLT e now = false := by
  cases e with
  | none => rfl
  | some x =>
      simp only [expiredGE, Bool.and_eq_false_iff] at h
      simp only [expiredLT, Bool.and_eq_false_iff]
      rcases h with h | h
      · exact Or.inl h
      · refine Or.inr ?_
        simp only [decide_eq_false_iff_not] at h ⊢
        omega

theorem fetchS_absent (s : Store) (id : String) (now : Int)
    (hfind : findRow s id = none) :
    fetchPasteWithView s id now = (none, s) := by
  simp [fetchPasteWithView, hfind]

theorem fetchS_expired (s : Store) (id : String) (now : Int) (row : PasteRow)
    (hfind : findRow s id = some row)
    (hexp : expiredGE row.expires_at now = true) :
    fetchPasteWithView s id now = (none, s) := by
  simp [fetchPasteWithView, hfind, hexp]

theorem fetchS_exhausted (s : Store) (id : String) (now : Int) (row : PasteRow) (v : Int)
    (hfind : findRow s id = some row)
    (hrv : row.remaining_views = some v) (hv : v ≤ 0) :
    fetchPasteWithView s id now = (none, s) := by
  by_cases hexp : expiredGE row.expires_at now = true
  · exact fetchS_expired s id now row hfind hexp
  · simp only [Bool.not_eq_true] at hexp
    simp [fetchPasteWithView, hfind, hexp, hrv, hv]

theorem fetchS_views (s : Store) (id : String) (now : Int) (row : PasteRow) (k : Int)
    (hfind : findRow s id = some row)
    (hexp : expiredGE row.expires_at now = false)
    (hrv : row.remaining_views = some k) (hk : 0 < k) :
    fetchPasteWithView s id now =
      (some { row with remaining_views := some (k - 1) }, setViews s id (k - 1)) := by
  simp [fetchPasteWithView, hfind, hexp, hrv, (show ¬ k ≤ 0 by omega)]

theorem fetchS_unlimited (s : Store) (id : String) (now : Int) (row : PasteRow)
    (hfind : findRow s id = some row)
    (hexp : expiredGE row.expires_at now = false)
    (hrv : row.remaining_views = none) :
    fetchPasteWithView s id now = (some row, s) := by
  simp [fetchPasteWithView, hfind, hexp, hrv]

theorem fetchB_absent (s : Store) (id : String) (now : Int)
    (hfind : findRow s id = none) :
    fetchPasteWithViewEager s id now = (none, s) := by
  simp [fetchPasteWithViewEager, hfind]

theorem fetchB_expired (s : Store) (id : String) (now : Int) (row : PasteRow)
    (hfind : findRow s id = some row)
    (hexp : expiredLT row.expires_at now = true) :
    fetchPasteWithViewEager s id now = (none, (deletePaste s id).2) := by
  simp [fetchPasteWithViewEager, hfind, hexp]

theorem fetchB_exhausted (s : Store) (id : String) (now : Int) (row : PasteRow) (v : Int)
    (hfind : findRow s id = some row)
    (hrv : row.remaining_views = some v) (hv : v ≤ 0) :
    (fetchPasteWithViewEager s id now).1 = none := by
  by_cases hexp : expiredLT row.expires_at now = true
  · simp [fetchB_expired s id now row hfind hexp]
  · simp only [Bool.not_eq_true] at hexp
    simp [fetchPasteWithViewEager, hfind, hexp, hrv, hv]

theorem fetchB_exhausted_state (s : Store) (id : String) (now : Int) (row : PasteRow)
    (v : Int) (hfind : findRow s id = some row)
    (hexp : expiredLT row.expires_at now = false)
    (hrv : row.remaining_views = some v) (hv : v ≤ 0) :
    fetchPasteWithViewEager s id now = (none, s) := by
  simp [fetchPasteWithViewEager, hfind, hexp, hrv, hv]

theorem fetchB_views (s : Store) (id : String) (now : Int) (row : PasteRow) (k : Int)
    (hfind : findRow s id = some row)
    (hexp : expiredLT row.expires_at now = false)
    (hrv : row.remaining_views = some k) (hk : 0 < k) :
    fetchPasteWithViewEager s id now =
      (some ⟨row.content, some (k - 1), row.expires_at⟩, decViews s id) := by
  simp [fetchPasteWithViewEager, hfind, hexp, hrv, (show ¬ k ≤ 0 by omega)]

theorem fetchB_unlimited (s : Store) (id : String) (now : Int) (row : PasteRow)
    (hfind : findRow s id = some row)
    (hexp : expiredLT row.expires_at now = false)
    (hrv : row.remaining_views = none) :
    fetchPasteWithViewEager s id now = (some ⟨row.content, none, row.expires_at⟩, s) := by
  simp [fetchPasteWithViewEager, hfind, hexp, hrv]

theorem fetchS_budget_some (s : Store) (id : String) (now : Int) (row : PasteRow)
    (hfind : findRow s id = some row)
    (hexp : expiredGE row.expires_at now = false)
    (hbud : budgetOk row.remaining_views) :
    (fetchPasteWithView s id now).1 ≠ none := by
  rcases hbud with hrv | ⟨v, hrv, hv⟩
  · simp [fetchS_unlimited s id now row hfind hexp hrv]
  · simp [fetchS_views s id now row v hfind hexp hrv hv]

theorem fetchB_budget_some (s : Store) (id : String) (now : Int) (row : PasteRow)
    (hexp : expiredLT row.expires_at now = false)
    (hfind : findRow s id = some row)
    (hbud : budgetOk row.remaining_views) :
    (fetchPasteWithViewEager s id now).1 ≠ none := by
  rcases hbud with hrv | ⟨v, hrv, hv⟩
  · simp [fetchB_unlimited s id now row hfind hexp hrv]
  · simp [fetchB_views s id now row v hfind hexp hrv hv]

theorem runS_filter_stats (s : Store) (ops : List Op) :
    runS s (ops.filter (fun op => ! op.isStats)) = runS s ops := by
  induction ops generalizing s with
  | nil => rfl
  | cons op t ih =>
      cases op with
      | stats i =>
          simpa [runS, List.filter_cons, Op.isStats, List.foldl_cons, stepS] using ih s
      | create id c ttl mv t0 =>
          simpa [runS, List.filter_cons, Op.isStats, List.foldl_cons] using
            ih (stepS s (Op.create id c ttl mv t0))
      | consume id now =>
          simpa [runS, List.filter_cons, Op.isStats, List.foldl_cons] using
            ih (stepS s (Op.consume id now))
      | delete id =>
          simpa [runS, List.filter_cons, Op.isStats, List.foldl_cons] using
            ih (stepS s (Op.delete id))
      | list =>
          simpa [runS, List.filter_cons, Op.isStats, List.foldl_cons] using
            ih (stepS s Op.list)

theorem runB_filter_stats (s : Store) (ops : List Op) :
    runB s (ops.filter (fun op => ! op.isStats)) = runB s ops := by
  induction ops generalizing s with
  | nil => rfl
  | cons op t ih =>
      cases op with
      | stats i =>
          simpa [runB, List.filter_cons, Op.isStats, List.foldl_cons, stepB] using ih s
      | create id c ttl mv t0 =>
          simpa [runB, List.filter_cons, Op.isStats, List.foldl_cons] using
            ih (stepB s (Op.create id c ttl mv t0))
      | consume id now =>
          simpa [runB, List.filter_cons, Op.isStats, List.foldl_cons] using
            ih (stepB s (Op.consume id now))
      | delete id =>
          simpa [runB, List.filter_cons, Op.isStats, List.foldl_cons] using
            ih (stepB s (Op.delete id))
      | list =>
          simpa [runB, List.filter_cons, Op.isStats, List.foldl_cons] using
            ih (stepB s Op.list)

theorem contentOk_iff (c : Option JsonVal) :
    contentOk c = true ↔ ∃ str, c = some (JsonVal.str str) ∧ str.data.all Char.isWhitespace = false := by
  cases c with
  | none => simp [contentOk]
  | some v => cases v <;> simp [contentOk]

theorem posIntOk_iff (x : Option JsonVal) :
    posIntOk x = true ↔ (x = none ∨ ∃ n : Int, x = some (JsonVal.int n) ∧ 1 ≤ n) := by
  cases x with
  | none => simp [posIntOk]
  | some v => cases v <;> simp [posIntOk]

theorem createEndpoint_invalid_iff (s : Store) (content ttl mv : Option JsonVal)
    (id : String) (t0 : Int) :
    (createEndpoint s content ttl mv id t0).1 = CreateOutcome.invalidArgument ↔
      (contentOk content = false ∨ posIntOk ttl = false ∨ posIntOk mv = false) := by
  by_cases h1 : contentOk content = true
  · by_cases h2 : posIntOk ttl = true
    · by_cases h3 : posIntOk mv = true
      · simp only [createEndpoint, h1, h2, h3, Bool.not_true, Bool.false_eq_true, if_false]
        cases hcp : createPaste s id (asStr content) (asInt ttl) (asInt mv) t0 with
        | error e => simp [hcp, h1, h2, h3]
        | ok s2 => simp [hcp, h1, h2, h3]
      · have h3' : posIntOk mv = false := by simpa using h3
        simp [createEndpoint, h1, h2, h3']
    · have h2' : posIntOk ttl = false := by simpa using h2
      simp [createEndpoint, h1, h2']
  · have h1' : contentOk content = false := by simpa using h1
    simp [createEndpoint, h1']

/-! ## The claims -/

/-- C1, counterexample to the claim as stated: the better-sqlite3 variant
of `fetchPasteWithView` (the claim's first code citation) uses the test
`expires_at < now`, so for a paste created at t0 = 1000 with
`ttl_seconds = 4` (hence `expires_at = 5000`) the consume at
`now = t0 + T*1000 = 5000` still serves the paste instead of returning
NotAvailable. -/
theorem c1_counterexample :
    createPaste [] "a" "x" (some 4) none 1000 = Except.ok demoExpiry ∧
    (fetchPasteWithViewEager demoExpiry "a" 5000).1 =
      some { content := "x", remaining_views := none, expires_at := some 5000 } := by
  exact ⟨rfl, rfl⟩

/-- C1, amended: for a paste created with `ttl_seconds = T ≥ 1` at
`created_at = t0 ≥ 0` (so `expires_at = t0 + T*1000`), the sqlite3/pg
variant of `fetchPasteWithView` rejects exactly when `now ≥ expires_at`:
the consume at `expires_at - 1` succeeds (given view budget) and the one
at `expires_at` returns NotAvailable.  The better-sqlite3 variant instead
rejects exactly when `now > expires_at`: it still succeeds at
`now = expires_at` and first rejects at `expires_at + 1`. -/
theorem c1_expiry_boundary (s s' : Store) (id c : String) (T t0 : Int)
    (mv : Option Int) (hT : 1 ≤ T) (ht0 : 0 ≤ t0) (hbud : budgetOk mv)
    (hcreate : createPaste s id c (some T) mv t0 = Except.ok s') :
    ((fetchPasteWithView s' id (t0 + T * 1000 - 1)).1 ≠ none ∧
     (fetchPasteWithView s' id (t0 + T * 1000)).1 = none) ∧
    ((fetchPasteWithViewEager s' id (t0 + T * 1000)).1 ≠ none ∧
     (fetchPasteWithViewEager s' id (t0 + T * 1000 + 1)).1 = none) := by
  have hs' : s' = mkRow id c (some T) mv t0 :: s := by
    unfold createPaste at hcreate
    split at hcreate
    · cases hcreate
    · exact (Except.ok.injEq _ _ ▸ hcreate.symm)
  subst hs'
  set row := mkRow id c (some T) mv t0 with hrow
  have hid : row.id = id := rfl
  have hexpat : row.expires_at = some (t0 + T * 1000) := by
    simp only [hrow, mkRow, mkExpiresAt]
    rw [if_neg (by simp; omega)]
  have hfind : findRow (row :: s) id = some row := findRow_cons_self s row id hid
  have hE : (0 : Int) < t0 + T * 1000 := by omega
  have hrv : row.remaining_views = mv := rfl
  refine ⟨⟨?_, ?_⟩, ⟨?_, ?_⟩⟩
  · refine fetchS_budget_some _ id _ row hfind ?_ (hrv ▸ hbud)
    rw [hexpat]
    simp only [expiredGE, Bool.and_eq_false_iff, decide_eq_false_iff_not]
    right; omega
  · rw [fetchS_expired _ id _ row hfind (by rw [hexpat]; simp [expiredGE]; omega)]
  · refine fetchB_budget_some _ id _ row ?_ hfind (hrv ▸ hbud)
    rw [hexpat]
    simp only [expiredLT, Bool.and_eq_false_iff, decide_eq_false_iff_not]
    right; omega
  · rw [fetchB_expired _ id _ row hfind (by rw [hexpat]; simp [expiredLT]; omega)]

/-- C1, witness: the amended boundary at the concrete paste of
`demoExpiry` (t0 = 1000, T = 4, expiry 5000, unlimited views). -/
theorem c1_expiry_boundary_witness :
    ((fetchPasteWithView demoExpiry "a" (1000 + 4 * 1000 - 1)).1 ≠ none ∧
     (fetchPasteWithView demoExpiry "a" (1000 + 4 * 1000)).1 = none) ∧
    ((fetchPasteWithViewEager demoExpiry "a" (1000 + 4 * 1000)).1 ≠ none ∧
     (fetchPasteWithViewEager demoExpiry "a" (1000 + 4 * 1000 + 1)).1 = none) :=
  c1_expiry_boundary [] demoExpiry "a" "x" 4 1000 none (by decide) (by decide)
    (Or.inl rfl) rfl

/-- C3: over any sequence of create/consume/stats/delete/list operations
whose creations seed a nonnegative `max_views`, every stored
`remaining_views` stays ≥ 0 (in both backend variants), and a consume on
a paste whose budget is ≤ 0 returns NotAvailable without touching the
store (the sqlite3/pg transaction rolls back to the identical table; the
better-sqlite3 path returns null). -/
theorem c3_views_never_negative (s : Store) (ops : List Op)
    (hInv : Inv s) (hops : ∀ op ∈ ops, okOp op) :
    (viewsNonneg (runS s ops) ∧ viewsNonneg (runB s ops)) ∧
    (∀ id now row v, findRow s id = some row → row.remaining_views = some v → v ≤ 0 →
      fetchPasteWithView s id now = (none, s) ∧
      (fetchPasteWithViewEager s id now).1 = none) := by
  refine ⟨⟨(inv_runS s ops hInv hops).2, (inv_runB s ops hInv hops).2⟩, ?_⟩
  intro id now row v hfind hrv hv
  exact ⟨fetchS_exhausted s id now row v hfind hrv hv,
         fetchB_exhausted s id now row v hfind hrv hv⟩

/-- C3, witness: the invariant and the rejection at the concrete
exhausted paste of `demoDead`, under one consume. -/
theorem c3_views_never_negative_witness :
    (viewsNonneg (runS demoDead [Op.consume "d" 99]) ∧
     viewsNonneg (runB demoDead [Op.consume "d" 99])) ∧
    fetchPasteWithView demoDead "d" 99 = (none, demoDead) ∧
    (fetchPasteWithViewEager demoDead "d" 99).1 = none := by
  have h := c3_views_never_negative demoDead [Op.consume "d" 99]
    ⟨by simp [keysNodup, demoDead], by
      intro r hr v hv
      simp only [demoDead, List.mem_singleton] at hr
      subst hr
      simp only [demoDeadRow, Option.some.injEq] at hv
      omega⟩
    (by intro op hop; simp only [List.mem_singleton] at hop; subst hop; trivial)
  exact ⟨h.1, h.2 "d" 99 demoDeadRow 0 rfl rfl (by decide)⟩

/-- C4: a successful consume on a paste with `remaining_views = k > 0`
stores exactly `k - 1` and returns the post-decrement value together with
the paste's content and `expires_at`, in both backend variants; and a
paste created with `max_views = 1` returns `remaining_views = 0` on its
first consume. -/
theorem c4_decrement_exact :
    (∀ (s : Store) (id : String) (now : Int) (row : PasteRow) (k : Int),
      findRow s id = some row → row.remaining_views = some k → 0 < k →
      expiredGE row.expires_at now = false →
      (fetchPasteWithView s id now).1 =
          some { row with remaining_views := some (k - 1) } ∧
      findRow (fetchPasteWithView s id now).2 id =
          some { row with remaining_views := some (k - 1) } ∧
      (fetchPasteWithViewEager s id now).1 =
          some ⟨row.content, some (k - 1), row.expires_at⟩ ∧
      findRow (fetchPasteWithViewEager s id now).2 id =
          some { row with remaining_views := some (k - 1) }) ∧
    (∀ (s s' : Store) (id c : String) (t0 now : Int),
      createPaste s id c none (some 1) t0 = Except.ok s' →
      (fetchPasteWithView s' id now).1 =
          some { mkRow id c none (some 1) t0 with remaining_views := some 0 } ∧
      (fetchPasteWithViewEager s' id now).1 = some ⟨c, some 0, none⟩) := by
  have key : ∀ (s : Store) (id : String) (now : Int) (row : PasteRow) (k : Int),
      findRow s id = some row → row.remaining_views = some k → 0 < k →
      expiredGE row.expires_at now = false →
      (fetchPasteWithView s id now).1 =
          some { row with remaining_views := some (k - 1) } ∧
      findRow (fetchPasteWithView s id now).2 id =
          some { row with remaining_views := some (k - 1) } ∧
      (fetchPasteWithViewEager s id now).1 =
          some ⟨row.content, some (k - 1), row.expires_at⟩ ∧
      findRow (fetchPasteWithViewEager s id now).2 id =
          some { row with remaining_views := some (k - 1) } := by
    intro s id now row k hfind hrv hk hexp
    have hexpB := expiredLT_false_of_expiredGE_false row.expires_at now hexp
    have hidr : row.id = id := findRow_id s id row hfind
    rw [fetchS_views s id now row k hfind hexp hrv hk,
        fetchB_views s id now row k hfind hexpB hrv hk]
    refine ⟨rfl, ?_, rfl, ?_⟩
    · rw [show setViews s id (k - 1) =
          s.map (fun r => if r.id == id then { r with remaining_views := some (k - 1) }
            else r) from rfl,
        findRow_map _ (fun r => by by_cases h : r.id = id <;> simp [h]) s id, hfind]
      simp [hidr]
    · rw [show decViews s id =
          s.map (fun r => if r.id == id then
            { r with remaining_views := r.remaining_views.map (· - 1) } else r) from rfl,
        findRow_map _ (fun r => by by_cases h : r.id = id <;> simp [h]) s id, hfind]
      simp [hidr, hrv]
  refine ⟨key, ?_⟩
  intro s s' id c t0 now hcreate
  have hs' : s' = mkRow id c none (some 1) t0 :: s := by
    unfold createPaste at hcreate
    split at hcreate
    · cases hcreate
    · exact (Except.ok.injEq _ _ ▸ hcreate.symm)
  subst hs'
  have hfind : findRow (mkRow id c none (some 1) t0 :: s) id =
      some (mkRow id c none (some 1) t0) := findRow_cons_self s _ id rfl
  have h := key _ id now (mkRow id c none (some 1) t0) 1 hfind rfl (by decide)
    (by simp [mkRow, mkExpiresAt, expiredGE])
  exact ⟨by simpa using h.1, by simpa [mkRow, mkExpiresAt] using h.2.2.1⟩

/-- C4, witness: Scenario A on `demoViews` — the paste holding one view
is consumed, returns `remaining_views = 0` with its content, and the
stored counter drops to 0, in both variants. -/
theorem c4_decrement_exact_witness :
    (fetchPasteWithView demoViews "v" 5).1 =
        some { demoViewRow with remaining_views := some 0 } ∧
    findRow (fetchPasteWithView demoViews "v" 5).2 "v" =
        some { demoViewRow with remaining_views := some 0 } ∧
    (fetchPasteWithViewEager demoViews "v" 5).1 =
        some ⟨demoViewRow.content, some 0, demoViewRow.expires_at⟩ ∧
    findRow (fetchPasteWithViewEager demoViews "v" 5).2 "v" =
        some { demoViewRow with remaining_views := some 0 } := by
  have h := c4_decrement_exact.1 demoViews "v" 5 demoViewRow 1 rfl rfl (by decide) rfl
  simpa using h

/-- C5: the stats operation is a pure read — dropping every `stats` call
from an arbitrary operation sequence (so even interleaved with consumes)
leaves the final table identical, in both backend variants — and it
applies no expiry or view-exhaustion filter: for any existing row, also
an expired or exhausted one, it returns the row's id, created_at,
expires_at, remaining_views and content length rather than NotFound. -/
theorem c5_stats_pure_unfiltered (s : Store) (ops : List Op) (id : String) :
    runS s (ops.filter (fun op => ! op.isStats)) = runS s ops ∧
    runB s (ops.filter (fun op => ! op.isStats)) = runB s ops ∧
    (∀ row, findRow s id = some row → getPasteStats s id = some (metaOf row)) := by
  refine ⟨runS_filter_stats s ops, runB_filter_stats s ops, ?_⟩
  intro row hfind
  simp [getPasteStats, hfind]

/-- C5, witness: stats interleaved with a consume on the dead paste of
`demoDead` change nothing, and stats still reports the expired,
exhausted record. -/
theorem c5_stats_pure_unfiltered_witness :
    runS demoDead ([Op.stats "d", Op.consume "d" 99, Op.stats "d"].filter
      (fun op => ! op.isStats)) =
      runS demoDead [Op.stats "d", Op.consume "d" 99, Op.stats "d"] ∧
    runB demoDead ([Op.stats "d", Op.consume "d" 99, Op.stats "d"].filter
      (fun op => ! op.isStats)) =
      runB demoDead [Op.stats "d", Op.consume "d" 99, Op.stats "d"] ∧
    getPasteStats demoDead "d" = some (metaOf demoDeadRow) := by
  have h := c5_stats_pure_unfiltered demoDead [Op.stats "d", Op.consume "d" 99, Op.stats "d"] "d"
  exact ⟨h.1, h.2.1, h.2.2 demoDeadRow rfl⟩

/-- C6, counterexample to the claim as stated: in the better-sqlite3
variant (the claim's first code citation) a consume on the expired paste
of `demoExpiry` returns NotAvailable but eagerly DELETEs the row, so the
subsequent stats lookup no longer observes the record, although it did
before the consume. -/
theorem c6_counterexample :
    (fetchPasteWithViewEager demoExpiry "a" 6000).1 = none ∧
    (fetchPasteWithViewEager demoExpiry "a" 6000).2 = [] ∧
    getPasteStats (fetchPasteWithViewEager demoExpiry "a" 6000).2 "a" = none ∧
    getPasteStats demoExpiry "a" ≠ none := by
  exact ⟨rfl, rfl, rfl, by decide⟩

/-- C6, amended: expired and view-exhausted pastes are terminal for the
consume operation in both variants (it always returns NotAvailable).  In
the sqlite3/pg variant the rejected consume leaves the table unchanged,
so the record stays visible to stats until an explicit delete.  In the
better-sqlite3 variant only a view-exhausted (non-expired) record stays;
a consume rejected by its expiry test eagerly deletes the row, after
which stats no longer observes it. -/
theorem c6_dead_pastes_terminal (s : Store) (id : String) (now : Int) (row : PasteRow)
    (hfind : findRow s id = some row) :
    ((expiredGE row.expires_at now = true ∨ (∃ v, row.remaining_views = some v ∧ v ≤ 0)) →
      fetchPasteWithView s id now = (none, s) ∧
      getPasteStats (fetchPasteWithView s id now).2 id = some (metaOf row)) ∧
    ((expiredLT row.expires_at now = true ∨ (∃ v, row.remaining_views = some v ∧ v ≤ 0)) →
      (fetchPasteWithViewEager s id now).1 = none) ∧
    (expiredLT row.expires_at now = false →
      (∃ v, row.remaining_views = some v ∧ v ≤ 0) →
      (fetchPasteWithViewEager s id now).2 = s) ∧
    (expiredLT row.expires_at now = true →
      (fetchPasteWithViewEager s id now).2 = s.filter (fun r => r.id != id) ∧
      getPasteStats (fetchPasteWithViewEager s id now).2 id = none) := by
  refine ⟨?_, ?_, ?_, ?_⟩
  · intro hdead
    have hnone : fetchPasteWithView s id now = (none, s) := by
      rcases hdead with hexp | ⟨v, hrv, hv⟩
      · exact fetchS_expired s id now row hfind hexp
      · exact fetchS_exhausted s id now row v hfind hrv hv
    rw [hnone]
    simp [getPasteStats, hfind]
  · intro hdead
    rcases hdead with hexp | ⟨v, hrv, hv⟩
    · simp [fetchB_expired s id now row hfind hexp]
    · exact fetchB_exhausted s id now row v hfind hrv hv
  · intro hexp ⟨v, hrv, hv⟩
    rw [fetchB_exhausted_state s id now row v hfind hexp hrv hv]
  · intro hexp
    rw [fetchB_expired s id now row hfind hexp]
    exact ⟨rfl, by simp [getPasteStats, deletePaste, findRow_filter_ne]⟩

/-- C6, witness: the amended behavior at the dead paste of `demoDead`
(expired under both tests and exhausted) at `now = 99`. -/
theorem c6_dead_pastes_terminal_witness :
    (fetchPasteWithView demoDead "d" 99 = (none, demoDead) ∧
     getPasteStats (fetchPasteWithView demoDead "d" 99).2 "d" = some (metaOf demoDeadRow)) ∧
    (fetchPasteWithViewEager demoDead "d" 99).1 = none ∧
    ((fetchPasteWithViewEager demoDead "d" 99).2 =
        demoDead.filter (fun r => r.id != "d") ∧
     getPasteStats (fetchPasteWithViewEager demoDead "d" 99).2 "d" = none) := by
  have h := c6_dead_pastes_terminal demoDead "d" 99 demoDeadRow rfl
  exact ⟨h.1 (Or.inr ⟨0, rfl, by decide⟩),
         h.2.1 (Or.inr ⟨0, rfl, by decide⟩),
         h.2.2.2 (by decide)⟩

/-- C7: all three rejection cases of the consume operation — id absent,
paste expired (under the variant's own expiry test), paste
view-exhausted — resolve to the same `none` value in both backend
variants, so the consume result alone cannot distinguish an expired or
exhausted paste from one that never existed. -/
theorem c7_uniform_not_available (s : Store) (id : String) (now : Int) :
    (findRow s id = none →
      fetchPasteWithView s id now = (none, s) ∧
      (fetchPasteWithViewEager s id now).1 = none) ∧
    (∀ row, findRow s id = some row → expiredGE row.expires_at now = true →
      (fetchPasteWithView s id now).1 = none) ∧
    (∀ row, findRow s id = some row → expiredLT row.expires_at now = true →
      (fetchPasteWithViewEager s id now).1 = none) ∧
    (∀ row v, findRow s id = some row → row.remaining_views = some v → v ≤ 0 →
      (fetchPasteWithView s id now).1 = none ∧
      (fetchPasteWithViewEager s id now).1 = none) := by
  refine ⟨?_, ?_, ?_, ?_⟩
  · intro hfind
    exact ⟨fetchS_absent s id now hfind, by simp [fetchB_absent s id now hfind]⟩
  · intro row hfind hexp
    simp [fetchS_expired s id now row hfind hexp]
  · intro row hfind hexp
    simp [fetchB_expired s id now row hfind hexp]
  · intro row v hfind hrv hv
    exact ⟨by simp [fetchS_exhausted s id now row v hfind hrv hv],
           fetchB_exhausted s id now row v hfind hrv hv⟩

/-- C7, witness: the absent case on an id the store does not hold, the
expired case and the exhausted case on its dead paste — all three yield
the identical `none`. -/
theorem c7_uniform_not_available_witness :
    (fetchPasteWithView demoDead "ghost" 99 = (none, demoDead) ∧
     (fetchPasteWithViewEager demoDead "ghost" 99).1 = none) ∧
    (fetchPasteWithView demoDead "d" 99).1 = none ∧
    (fetchPasteWithViewEager demoDead "d" 99).1 = none ∧
    ((fetchPasteWithView demoDead "d" 99).1 = none ∧
     (fetchPasteWithViewEager demoDead "d" 99).1 = none) := by
  have h := c7_uniform_not_available demoDead "ghost" 99
  have h2 := c7_uniform_not_available demoDead "d" 99
  exact ⟨h.1 rfl,
         h2.2.1 demoDeadRow rfl (by decide),
         h2.2.2.1 demoDeadRow rfl (by decide),
         h2.2.2.2 demoDeadRow 0 rfl rfl (by decide)⟩

/-- C8: the db-layer listing is sorted by `created_at` descending and is
a permutation of the metadata of all records — no expiry or
view-exhaustion filtering; the admin route truncates that order to the
first `limit` entries, defaulting to 100 when the query parameter is
absent; and the list operation has no effect on the table in either
variant. -/
theorem c8_list_newest_first (s : Store) (limit : Int) (hlim : 1 ≤ limit) :
    List.Sorted newestFirst (listAllPastes s) ∧
    List.Perm (listAllPastes s) (s.map metaOf) ∧
    adminList s none = (listAllPastes s).take 100 ∧
    adminList s (some limit) = (listAllPastes s).take limit.toNat ∧
    stepS s Op.list = s ∧ stepB s Op.list = s := by
  refine ⟨List.sorted_insertionSort newestFirst (s.map metaOf),
    List.perm_insertionSort newestFirst (s.map metaOf), ?_, ?_, rfl, rfl⟩
  · simp [adminList, parseLimit, sliceTo]
  · simp only [adminList, parseLimit]
    rw [if_neg (by simp; omega)]
    simp [sliceTo, show ¬ limit < 0 by omega]

/-- C8, witness: the two-paste store `demoPair` listed newest first,
capped at 1 entry and at the default 100. -/
theorem c8_list_newest_first_witness :
    List.Sorted newestFirst (listAllPastes demoPair) ∧
    List.Perm (listAllPastes demoPair) (demoPair.map metaOf) ∧
    adminList demoPair none = (listAllPastes demoPair).take 100 ∧
    adminList demoPair (some 1) = (listAllPastes demoPair).take (Int.toNat 1) ∧
    stepS demoPair Op.list = demoPair ∧ stepB demoPair Op.list = demoPair :=
  c8_list_newest_first demoPair 1 (by decide)

/-- C9: the create route returns InvalidArgument exactly when the body's
`content` is not a string with non-whitespace characters, or
`ttl_seconds` is present but not an integer ≥ 1, or `max_views` is
present but not an integer ≥ 1; on every other body (with a fresh id) it
stores the record; and the store layer itself admits any nonnegative
integer `max_views`. -/
theorem c9_create_boundary :
    (∀ (s : Store) (content ttl mv : Option JsonVal) (id : String) (t0 : Int),
      (createEndpoint s content ttl mv id t0).1 = CreateOutcome.invalidArgument ↔
        ((¬ ∃ str, content = some (JsonVal.str str) ∧ str.data.all Char.isWhitespace = false) ∨
         (ttl ≠ none ∧ ¬ ∃ n : Int, ttl = some (JsonVal.int n) ∧ 1 ≤ n) ∨
         (mv ≠ none ∧ ¬ ∃ n : Int, mv = some (JsonVal.int n) ∧ 1 ≤ n))) ∧
    (∀ (s : Store) (content ttl mv : Option JsonVal) (id : String) (t0 : Int),
      (∃ str, content = some (JsonVal.str str) ∧ str.data.all Char.isWhitespace = false) →
      (ttl = none ∨ ∃ n : Int, ttl = some (JsonVal.int n) ∧ 1 ≤ n) →
      (mv = none ∨ ∃ n : Int, mv = some (JsonVal.int n) ∧ 1 ≤ n) →
      s.any (fun r => r.id == id) = false →
      createEndpoint s content ttl mv id t0 =
        (CreateOutcome.created id,
         mkRow id (asStr content) (asInt ttl) (asInt mv) t0 :: s)) ∧
    (∀ (s : Store) (id c : String) (k t0 : Int), 0 ≤ k →
      s.any (fun r => r.id == id) = false →
      createPaste s id c none (some k) t0 =
        Except.ok (mkRow id c none (some k) t0 :: s)) := by
  refine ⟨?_, ?_, ?_⟩
  · intro s content ttl mv id t0
    rw [createEndpoint_invalid_iff]
    have e1 : contentOk content = false ↔
        ¬ ∃ str, content = some (JsonVal.str str) ∧ str.data.all Char.isWhitespace = false := by
      rw [← contentOk_iff]; simp
    have e2 : posIntOk ttl = false ↔
        ¬ (ttl = none ∨ ∃ n : Int, ttl = some (JsonVal.int n) ∧ 1 ≤ n) := by
      rw [← posIntOk_iff]; simp
    have e3 : posIntOk mv = false ↔
        ¬ (mv = none ∨ ∃ n : Int, mv = some (JsonVal.int n) ∧ 1 ≤ n) := by
      rw [← posIntOk_iff]; simp
    rw [e1, e2, e3, not_or, not_or]
  · intro s content ttl mv id t0 hcont httl hmv hfresh
    have h1 : contentOk content = true := (contentOk_iff content).mpr hcont
    have h2 : posIntOk ttl = true := (posIntOk_iff ttl).mpr httl
    have h3 : posIntOk mv = true := (posIntOk_iff mv).mpr hmv
    simp only [createEndpoint, h1, h2, h3, Bool.not_true, Bool.false_eq_true, if_false]
    simp [createPaste, hfresh]
  · intro s id c k t0 _hk hfresh
    simp [createPaste, hfresh]

/-- C9, witness: a whitespace-only content is rejected, a valid body is
stored, and the store layer accepts `max_views = 0`. -/
theorem c9_create_boundary_witness :
    (createEndpoint [] (some (JsonVal.str "  ")) none none "u1" 7).1 =
        CreateOutcome.invalidArgument ∧
    createEndpoint [] (some (JsonVal.str "hello")) (some (JsonVal.int 60))
        (some (JsonVal.int 5)) "u1" 7 =
      (CreateOutcome.created "u1", mkRow "u1" "hello" (some 60) (some 5) 7 :: []) ∧
    createPaste [] "u2" "x" none (some 0) 7 =
      Except.ok (mkRow "u2" "x" none (some 0) 7 :: []) := by
  refine ⟨?_, ?_, ?_⟩
  · refine (c9_create_boundary.1 [] (some (JsonVal.str "  ")) none none "u1" 7).mpr
      (Or.inl ?_)
    rintro ⟨str, hstr, hne⟩
    simp only [Option.some.injEq, JsonVal.str.injEq] at hstr
    subst hstr
    exact (by decide : "  ".data.all Char.isWhitespace ≠ false) hne
  · refine c9_create_boundary.2.1 [] (some (JsonVal.str "hello")) (some (JsonVal.int 60))
      (some (JsonVal.int 5)) "u1" 7 ⟨"hello", rfl, by decide⟩
      (Or.inr ⟨60, rfl, by decide⟩) (Or.inr ⟨5, rfl, by decide⟩) rfl
  · exact c9_create_boundary.2.2 [] "u2" "x" 0 7 (by decide) rfl

/-- C10: a paste created with `ttl_seconds = 0` stores no `expires_at` at
all (the JS truthiness test treats 0 like absence), so it never expires
by time: in both variants a consume at any `now` succeeds whenever the
view budget is NULL or positive. -/
theorem c10_zero_ttl_no_expiry (s s' : Store) (id c : String) (mv : Option Int)
    (t0 : Int) (hcreate : createPaste s id c (some 0) mv t0 = Except.ok s') :
    s' = mkRow id c (some 0) mv t0 :: s ∧
    (mkRow id c (some 0) mv t0).expires_at = none ∧
    (∀ (s2 : Store) (row : PasteRow) (now : Int),
      findRow s2 id = some row → row.expires_at = none →
      budgetOk row.remaining_views →
      (fetchPasteWithView s2 id now).1 ≠ none ∧
      (fetchPasteWithViewEager s2 id now).1 ≠ none) := by
  have hs' : s' = mkRow id c (some 0) mv t0 :: s := by
    unfold createPaste at hcreate
    split at hcreate
    · cases hcreate
    · exact (Except.ok.injEq _ _ ▸ hcreate.symm)
  refine ⟨hs', by simp [mkRow, mkExpiresAt], ?_⟩
  intro s2 row now hfind hexp hbud
  exact ⟨fetchS_budget_some s2 id now row hfind (by rw [hexp]; rfl) hbud,
         fetchB_budget_some s2 id now row (by rw [hexp]; rfl) hfind hbud⟩

/-- C10, witness: the paste created with `ttl_seconds = 0` at t0 = 5 has
no expiry and is still served at `now = 999999` by both variants. -/
theorem c10_zero_ttl_no_expiry_witness :
    ([mkRow "z" "c" (some 0) none 5] : Store) = mkRow "z" "c" (some 0) none 5 :: [] ∧
    (mkRow "z" "c" (some 0) none 5).expires_at = none ∧
    ((fetchPasteWithView [mkRow "z" "c" (some 0) none 5] "z" 999999).1 ≠ none ∧
     (fetchPasteWithViewEager [mkRow "z" "c" (some 0) none 5] "z" 999999).1 ≠ none) := by
  have h := c10_zero_ttl_no_expiry [] [mkRow "z" "c" (some 0) none 5] "z" "c" none 5 rfl
  exact ⟨h.1, h.2.1, h.2.2 [mkRow "z" "c" (some 0) none 5] (mkRow "z" "c" (some 0) none 5)
    999999 (findRow_cons_self [] _ "z" rfl) (by simp [mkRow, mkExpiresAt]) (Or.inl rfl)⟩

end Pastebin
